import Mathlib

/-!
Verification development for the clipboard citation pickup tool.

The Python code of `src/citation.py`, `src/ai.py` and the library handling of
`src/citationCollector.py` is shallowly embedded below.  Python strings are
`List Char`, `datetime` values are a seven-field record, `re.search` on the
heuristic patterns is a Brzozowski-derivative matcher (boolean existence of a
match is exactly what the source consumes), the JSON file becomes its parsed
value, and console output / file I-O side effects are dropped (the in-memory
state is what every claim is about).
-/

namespace ClipCite

/-! ## Characters: whitespace, digits, case folding (ASCII fragment) -/

/-- Whitespace as recognised by Python `str.strip` and `\s` (ASCII fragment). -/
def isSpaceCh (c : Char) : Bool :=
  c == ' ' || c == '\t' || c == '\n' || c == '\r' ||
  c == Char.ofNat 11 || c == Char.ofNat 12

/-- `\d` (ASCII). -/
def isDigitCh (c : Char) : Bool := '0' ≤ c && c ≤ '9'

def isUpperCh (c : Char) : Bool := 'A' ≤ c && c ≤ 'Z'

def isLowerCh (c : Char) : Bool := 'a' ≤ c && c ≤ 'z'

/-- Python `str.lower` (ASCII fragment). -/
def lowerCh (c : Char) : Char :=
  if isUpperCh c then Char.ofNat (c.toNat + 32) else c

/-- Python `str.strip`: drop leading whitespace. -/
def ltrim (l : List Char) : List Char := l.dropWhile isSpaceCh

/-- Python `str.strip`: drop trailing whitespace. -/
def rtrim (l : List Char) : List Char := (l.reverse.dropWhile isSpaceCh).reverse

/-- Python `str.strip()`. -/
def trim (l : List Char) : List Char := rtrim (ltrim l)

/-- Python's `needle in hay` substring test. -/
def isSubstring (needle : List Char) : List Char → Bool
  | [] => needle.isEmpty
  | c :: rest => needle.isPrefixOf (c :: rest) || isSubstring needle rest

/-! ## A Brzozowski-derivative regular-expression engine.

`re.search(pat, s)` is consumed by the classifier only through `bool(...)`,
so existence of a match (at some start position, of some length) is the
faithful semantics. -/

inductive Rx where
  | emp : Rx
  | eps : Rx
  | cls (p : Char → Bool) : Rx
  | cat (r₁ r₂ : Rx) : Rx
  | alt (r₁ r₂ : Rx) : Rx
  | star (r : Rx) : Rx

def Rx.nullable : Rx → Bool
  | .emp => false
  | .eps => true
  | .cls _ => false
  | .cat r₁ r₂ => r₁.nullable && r₂.nullable
  | .alt r₁ r₂ => r₁.nullable || r₂.nullable
  | .star _ => true

def Rx.deriv : Rx → Char → Rx
  | .emp, _ => .emp
  | .eps, _ => .emp
  | .cls p, c => if p c then .eps else .emp
  | .cat r₁ r₂, c =>
      if r₁.nullable then .alt (.cat (r₁.deriv c) r₂) (r₂.deriv c)
      else .cat (r₁.deriv c) r₂
  | .alt r₁ r₂, c => .alt (r₁.deriv c) (r₂.deriv c)
  | .star r, c => .cat (r.deriv c) (.star r)

/-- Does some prefix of `l` match `r`?  (A match anchored at the start.) -/
def matchesPref (r : Rx) : List Char → Bool
  | [] => r.nullable
  | c :: rest => r.nullable || matchesPref (r.deriv c) rest

/-- Does `r` match somewhere inside `l`?  This is `bool(re.search(r, l))`. -/
def searchRx (r : Rx) : List Char → Bool
  | [] => r.nullable
  | c :: rest => matchesPref r (c :: rest) || searchRx r rest

def Rx.chr (c : Char) : Rx := .cls (fun x => x == c)

def Rx.plus (r : Rx) : Rx := .cat r (.star r)

def Rx.opt (r : Rx) : Rx := .alt .eps r

/-- Literal word. -/
def Rx.word : List Char → Rx
  | [] => .eps
  | c :: rest => .cat (Rx.chr c) (Rx.word rest)

/-- `PMID:\s*\d+` (case sensitive, as in `isPubmedCitation`). -/
def pmidRx : Rx :=
  .cat (Rx.word ('P' :: 'M' :: 'I' :: 'D' :: ':' :: []))
    (.cat (.star (.cls isSpaceCh)) (Rx.plus (.cls isDigitCh)))

/-- `doi:\s*10\.\d+`. -/
def doiRx : Rx :=
  .cat (Rx.word ('d' :: 'o' :: 'i' :: ':' :: []))
    (.cat (.star (.cls isSpaceCh))
      (.cat (Rx.word ('1' :: '0' :: '.' :: [])) (Rx.plus (.cls isDigitCh))))

/-- `\d{4}[;\s][A-Za-z\s]+\d+\(\d+\):\d+`. -/
def journalRx : Rx :=
  let d : Rx := .cls isDigitCh
  .cat d (.cat d (.cat d (.cat d
    (.cat (.cls (fun c => c == ';' || isSpaceCh c))
      (.cat (Rx.plus (.cls (fun c => isUpperCh c || isLowerCh c || isSpaceCh c)))
        (.cat (Rx.plus d)
          (.cat (Rx.chr '(')
            (.cat (Rx.plus d)
              (.cat (Rx.chr ')')
                (.cat (Rx.chr ':') (Rx.plus d)))))))))))

/-- `^[A-Z][a-z]+\s+[A-Z]{1,3}[a-z]*.*\d{4}` (the `^` anchor makes
`re.search` try start position 0 only; `.` does not match a newline). -/
def authorRx : Rx :=
  let d : Rx := .cls isDigitCh
  let up : Rx := .cls isUpperCh
  .cat up (.cat (Rx.plus (.cls isLowerCh))
    (.cat (Rx.plus (.cls isSpaceCh))
      (.cat (.cat up (.cat (Rx.opt up) (Rx.opt up)))
        (.cat (.star (.cls isLowerCh))
          (.cat (.star (.cls (fun c => !(c == '\n'))))
            (.cat d (.cat d (.cat d d))))))))

/-! ## The classifier `CitationManager.isPubmedCitation` -/

/-- The `code_indicators` denylist. -/
def codeIndicators : List (List Char) :=
  [("def ").toList, ("import ").toList, ("class ").toList, ("return ").toList,
   ("if __name__").toList, ("from typing").toList, ("PyQt").toList,
   ("QApplication").toList, ("print(").toList, ("\"\"\"").toList]

def countTrue (l : List Bool) : Nat := (l.filter (fun b => b)).length

/-- `CitationManager.isPubmedCitation` (src/citation.py lines 57-88). -/
def isPubmedCitation (text : List Char) : Bool :=
  let t := trim text
  if t.length < 20 then false
  else if codeIndicators.any (fun ind => isSubstring ind t) then false
  else
    let has_pmid := searchRx pmidRx t
    let has_doi := searchRx doiRx t
    let has_journal_format := searchRx journalRx t
    let has_author_year := matchesPref authorRx t
    let strong := [has_pmid, has_doi, has_journal_format && has_author_year]
    let lowered := t.map lowerCh
    let weak := [isSubstring (('e' :: 'p' :: 'u' :: 'b' :: [])) lowered,
                 isSubstring (('p' :: 'm' :: 'c' :: 'i' :: 'd' :: ':' :: [])) lowered]
    decide (1 ≤ countTrue strong) || decide (2 ≤ countTrue weak)

/-! ## PMID extraction: `re.search(r'PMID:\s*(\d+)', text, re.IGNORECASE)`.

For this pattern the leftmost match begins at the leftmost case-insensitive
occurrence of `PMID:` that is followed (after the maximal whitespace run,
which is the only option: a shorter run would leave a whitespace character
where a digit is required) by at least one digit, and the greedy `(\d+)`
group is the maximal digit run there.  The scan below computes exactly
that. -/

def ciStarts : List Char → List Char → Bool
  | [], _ => true
  | _ :: _, [] => false
  | k :: ks, c :: cs => (lowerCh k == lowerCh c) && ciStarts ks cs

def pmidGroupAt (l : List Char) : Option (List Char) :=
  if ciStarts ('P' :: 'M' :: 'I' :: 'D' :: ':' :: []) l then
    let ds := ((l.drop 5).dropWhile isSpaceCh).takeWhile isDigitCh
    if ds.isEmpty then none else some ds
  else none

def searchPmidCI : List Char → Option (List Char)
  | [] => none
  | c :: rest =>
    match pmidGroupAt (c :: rest) with
    | some ds => some ds
    | none => searchPmidCI rest

/-- The spec's `extractIdentifier`: the inline extraction of
src/citation.py lines 100-102 (applied to the raw `text` argument). -/
def extractIdentifier (text : List Char) : Option (List Char) := searchPmidCI text

/-! ## Data model -/

/-- `datetime.datetime`, to the precision the code uses. -/
structure DateTime where
  year : Nat
  month : Nat
  day : Nat
  hour : Nat
  minute : Nat
  second : Nat
  microsecond : Nat
deriving DecidableEq

/-- February obeys the Gregorian leap rule, as in `datetime`. -/
def daysInMonth (y m : Nat) : Nat :=
  if m == 2 then
    (if y % 4 == 0 && (y % 100 != 0 || y % 400 == 0) then 29 else 28)
  else if m == 4 || m == 6 || m == 9 || m == 11 then 30
  else 31

/-- The ranges `datetime.datetime` itself enforces on construction and
`fromisoformat` re-checks on parsing. -/
def dtValid (t : DateTime) : Bool :=
  decide (1 ≤ t.year ∧ t.year ≤ 9999 ∧ 1 ≤ t.month ∧ t.month ≤ 12 ∧
    1 ≤ t.day ∧ t.day ≤ daysInMonth t.year t.month ∧
    t.hour ≤ 23 ∧ t.minute ≤ 59 ∧ t.second ≤ 59 ∧ t.microsecond ≤ 999999)

/-- The `Citation` dataclass. -/
structure Citation where
  text : List Char
  timestamp : DateTime
  pmid : Option (List Char)
  notes : List Char
  summary : List Char
deriving DecidableEq

/-- The dynamic value `addCitation` actually returns: a bool or a string. -/
inductive PyRet where
  | pyBool (b : Bool) : PyRet
  | pyStr (s : List Char) : PyRet
deriving DecidableEq

def noteAppendedStr : List Char := ("note_appended").toList

/-- The note separator `"\n---\n"`. -/
def noteSep : List Char := '\n' :: '-' :: '-' :: '-' :: '\n' :: []

/-! ## The summary provider (src/ai.py) -/

/-- A Python `dict[str, str]`: insertion order kept, value overwritten on
repeated keys. -/
def DictSS := List (List Char × List Char)

def dictInsert (d : DictSS) (k v : List Char) : DictSS :=
  if (List.any d (fun p => decide (p.1 = k))) then
    List.map (fun p => if decide (p.1 = k) then (p.1, v) else p) d
  else List.append d [(k, v)]

def dictLookup (d : DictSS) (k : List Char) : Option (List Char) :=
  (List.find? (fun p => decide (p.1 = k)) d).map (fun p => p.2)

/-- Python `s.split('\n')`. -/
def splitLines (l : List Char) : List (List Char) :=
  l.foldr
    (fun c acc =>
      match acc with
      | [] => [[c]]
      | a :: rest => if c == '\n' then [] :: a :: rest else (c :: a) :: rest)
    [[]]

/-- The response-parsing loop of `generateCitationSummaries`
(src/ai.py lines 70-82): one candidate label per line, a leading
`"{i+1}."` ordinal stripped, keyed by the i-th input citation. -/
def parseSummaryLines (citations : List (List Char)) (lines : List (List Char)) :
    DictSS :=
  (lines.enum).foldl
    (fun d iline =>
      let i := iline.1
      let line := iline.2
      if !(trim line).isEmpty && decide (i < citations.length) then
        let clean := trim line
        let tag := (Nat.toDigits 10 (i + 1)).append ['.']
        let clean := if tag.isPrefixOf clean then trim (clean.drop tag.length) else clean
        dictInsert d (citations.getD i []) clean
      else d)
    []

/-- `OpenAIHelper.generateCitationSummaries` (src/ai.py lines 33-86).  The
network reply body is the `resp` parameter; when the helper is disabled or
the batch is empty the call returns the empty mapping without consulting
it. -/
def generateCitationSummaries (enabled : Bool) (citations : List (List Char))
    (resp : List Char) : DictSS :=
  if !enabled || citations.isEmpty then []
  else parseSummaryLines citations (splitLines (trim resp))

/-! ## The manager operations (src/citation.py) -/

/-- `CitationManager.updateSummaries` (lines 142-167).  `enabled` is
`self.openai_helper.enabled`, `resp` the provider reply it would receive. -/
def updateSummaries (enabled : Bool) (resp : List Char) (st : List Citation) :
    List Citation :=
  if !enabled then st
  else
    let needing := st.map (fun c => c.text)
    if needing.isEmpty then st
    else
      let summaries := generateCitationSummaries enabled needing resp
      st.map (fun c =>
        match dictLookup summaries c.text with
        | some s => { c with summary := s }
        | none => c)

/-- Mutating the first stored citation whose `text` equals `key`
(the loop-and-break of lines 104-109 followed by the in-place note
update). -/
def updFirstNotes : List Citation → List Char → List Char → List Citation
  | [], _, _ => []
  | c :: rest, key, nn =>
    if decide (c.text = key) then { c with notes := nn } :: rest
    else c :: updFirstNotes rest key nn

/-- `CitationManager.addCitation` (lines 90-140).  `now` stands for
`datetime.now()`; `enabled`/`resp` parameterise the summary provider the
added-branch invokes; disk writes do not change the in-memory state. -/
def addCitation (text notes : List Char) (st : List Citation) (now : DateTime)
    (enabled : Bool) (resp : List Char) : PyRet × List Citation :=
  if !isPubmedCitation text then (.pyBool false, st)
  else
    let pmid := extractIdentifier text
    match st.find? (fun c => decide (c.text = trim text)) with
    | some existing =>
      if !(trim notes).isEmpty then
        let nn :=
          if !existing.notes.isEmpty then
            (existing.notes.append noteSep).append (trim notes)
          else trim notes
        (.pyStr noteAppendedStr, updFirstNotes st (trim text) nn)
      else (.pyBool false, st)
    | none =>
      let c : Citation :=
        { text := trim text, timestamp := now, pmid := pmid,
          notes := notes, summary := [] }
      (.pyBool true, updateSummaries enabled resp (st.append [c]))

/-- `CitationManager.removeCitation` (lines 169-173); a Python `int` index
may be negative, hence `Int`. -/
def removeCitation (st : List Citation) (index : Int) : List Citation :=
  if 0 ≤ index ∧ index < st.length then st.eraseIdx index.toNat else st

/-- `CitationManager.clearAll` (lines 175-178). -/
def clearAll (_st : List Citation) : List Citation := []

/-! ## Persistence (lines 180-230)

`json.dump`/`json.load` round-trip the JSON value itself, so the persisted
representation is modelled at the value level: a list of objects whose
fields are optional strings (`pmid` may also be an explicit `null`).  The
timestamp leaves as `datetime.isoformat()` and returns through
`datetime.fromisoformat`, both implemented below on the canonical
fixed-width format `isoformat` emits. -/

def digitCh (d : Nat) : Char := Char.ofNat (48 + d)

def digitVal (c : Char) : Nat := c.toNat - 48

/-- `n` printed in decimal, zero-padded to exactly `w` digits (the shape
`isoformat` gives each field). -/
def padDigits : Nat → Nat → List Char
  | 0, _ => []
  | w + 1, n => digitCh (n / 10 ^ w) :: padDigits w (n % 10 ^ w)

def parseFixedAux : Nat → Nat → List Char → Option (Nat × List Char)
  | 0, acc, l => some (acc, l)
  | _ + 1, _, [] => none
  | w + 1, acc, c :: rest =>
    if isDigitCh c then parseFixedAux w (acc * 10 + digitVal c) rest else none

/-- Read exactly `w` decimal digits. -/
def parseFixed (w : Nat) (l : List Char) : Option (Nat × List Char) :=
  parseFixedAux w 0 l

def expectCh (c : Char) : List Char → Option (List Char)
  | [] => none
  | x :: rest => if x == c then some rest else none

/-- `datetime.isoformat()`: `YYYY-MM-DDTHH:MM:SS`, with `.ffffff` appended
exactly when the microsecond field is non-zero. -/
def isoformat (t : DateTime) : List Char :=
  padDigits 4 t.year ++ '-' ::
  (padDigits 2 t.month ++ '-' ::
  (padDigits 2 t.day ++ 'T' ::
  (padDigits 2 t.hour ++ ':' ::
  (padDigits 2 t.minute ++ ':' ::
  (padDigits 2 t.second ++
    (if t.microsecond == 0 then [] else '.' :: padDigits 6 t.microsecond))))))

/-- `datetime.fromisoformat` on the canonical format `isoformat` produces;
anything else (in particular any malformed timestamp) yields `none`, the
model of the `ValueError` the caller catches. -/
def parseUsec : List Char → Option Nat
  | [] => some 0
  | '.' :: r2 =>
    match parseFixed 6 r2 with
    | none => none
    | some pus => if pus.2.isEmpty then some pus.1 else none
  | _ => none

def mkDT (y mo d h mi s us : Nat) : Option DateTime :=
  let dt : DateTime :=
    { year := y, month := mo, day := d, hour := h,
      minute := mi, second := s, microsecond := us }
  if dtValid dt then some dt else none

def parseClock (h mi : Nat) (l : List Char) : Option (Nat × Nat × Nat × List Char) :=
  match parseFixed 2 l with
  | none => none
  | some ps => some (h, mi, ps.1, ps.2)

def parseClock2 (h : Nat) (l : List Char) : Option (Nat × Nat × Nat × List Char) :=
  match parseFixed 2 l with
  | none => none
  | some pmi =>
    match expectCh ':' pmi.2 with
    | none => none
    | some r => parseClock h pmi.1 r

def parseClock3 (l : List Char) : Option (Nat × Nat × Nat × List Char) :=
  match parseFixed 2 l with
  | none => none
  | some ph =>
    match expectCh ':' ph.2 with
    | none => none
    | some r => parseClock2 ph.1 r

def parseDate (l : List Char) : Option (Nat × Nat × Nat × List Char) :=
  match parseFixed 4 l with
  | none => none
  | some py =>
    match expectCh '-' py.2 with
    | none => none
    | some r =>
      match parseFixed 2 r with
      | none => none
      | some pmo =>
        match expectCh '-' pmo.2 with
        | none => none
        | some r2 =>
          match parseFixed 2 r2 with
          | none => none
          | some pd => some (py.1, pmo.1, pd.1, pd.2)

def fromisoformat (l : List Char) : Option DateTime :=
  match parseDate l with
  | none => none
  | some pdate =>
    match expectCh 'T' pdate.2.2.2 with
    | none => none
    | some r =>
      match parseClock3 r with
      | none => none
      | some pclock =>
        match parseUsec pclock.2.2.2 with
        | none => none
        | some us =>
          mkDT pdate.1 pdate.2.1 pdate.2.2.1 pclock.1 pclock.2.1 pclock.2.2.1 us

/-- One serialized record: the dict written by `saveCitations`
(lines 184-192), with optional fields so that hand-corrupted files with
missing keys are representable. -/
structure PItem where
  text : Option (List Char)
  timestamp : Option (List Char)
  pmid : Option (Option (List Char))
  notes : Option (List Char)
  summary : Option (List Char)
deriving DecidableEq

/-- The dict `saveCitations` emits for one citation. -/
def saveItem (c : Citation) : PItem :=
  { text := some c.text, timestamp := some (isoformat c.timestamp),
    pmid := some c.pmid, notes := some c.notes, summary := some c.summary }

/-- `CitationManager.saveCitations` (lines 180-201), at the value level. -/
def saveCitations (st : List Citation) : List PItem := st.map saveItem

/-- Python `item.get('pmid')`: `None` whether the key is absent or
explicitly null. -/
def joinOpt (o : Option (Option (List Char))) : Option (List Char) :=
  match o with
  | none => none
  | some v => v

/-- Rebuilding one `Citation` from a stored dict (lines 214-222):
`item['text']` and `item['timestamp']` raise `KeyError` when absent,
`fromisoformat` raises on a malformed timestamp, and the optional fields
fall back to their `item.get` defaults. -/
def parseItem (it : PItem) : Except Unit Citation :=
  match it.text with
  | none => .error ()
  | some tx =>
    match it.timestamp with
    | none => .error ()
    | some ts =>
      match fromisoformat ts with
      | none => .error ()
      | some t =>
        .ok { text := tx, timestamp := t, pmid := joinOpt it.pmid,
              notes := it.notes.getD [], summary := it.summary.getD [] }

def loadAux : List PItem → Except Unit (List Citation)
  | [] => .ok []
  | it :: rest =>
    match parseItem it with
    | .error e => .error e
    | .ok c =>
      match loadAux rest with
      | .error e => .error e
      | .ok cs => .ok (c :: cs)

/-- What `loadCitations` finds on disk: no file, a file `json.load`
cannot decode (malformed encoding), or a decoded list of records. -/
inductive LoadInput where
  | noFile : LoadInput
  | badParse : LoadInput
  | parsed (d : List PItem) : LoadInput

/-- `CitationManager.loadCitations` (lines 203-230) on a fresh (empty)
in-memory list: a missing file leaves it empty, and both `except` arms
reset `self.citations` to `[]`, so no error ever escapes to the caller. -/
def loadCitations (inp : LoadInput) : List Citation :=
  match inp with
  | .noFile => []
  | .badParse => []
  | .parsed d =>
    match loadAux d with
    | .ok l => l
    | .error _ => []

def exceptOk : Except Unit (List Citation) → Bool
  | .ok _ => true
  | .error _ => false

/-- A structural error in the claim's sense: undecodable file, a record
missing a required field, or a malformed timestamp. -/
def itemBad (it : PItem) : Bool :=
  it.text.isNone ||
  (match it.timestamp with
   | none => true
   | some s => (fromisoformat s).isNone)

def structBad : LoadInput → Bool
  | .noFile => false
  | .badParse => true
  | .parsed d => d.any itemBad

/-! ## Library names (src/citation.py lines 22-38, src/citationCollector.py
lines 343-359) -/

/-- The safe set of the sanitizer's character class `[^\w\-_]`
(ASCII fragment of `\w`, plus the hyphen). -/
def safeNameCh (c : Char) : Bool :=
  isUpperCh c || isLowerCh c || isDigitCh c || c == '_' || c == '-'

/-- The file name `__init__` and `switchLibrary` build:
`f".pubmed_citations_{library_name}.json"`, with the name inserted
verbatim. -/
def dataFileName (library_name : List Char) : List Char :=
  ((".pubmed_citations_").toList.append library_name).append ((".json").toList)

/-- The GUI's new-library sanitizer (`createNewLibrary`, line 355):
`re.sub(r'[^\w\-_]', '_', name.strip())` — each unsafe character is
replaced by an underscore, none is removed and no name is refused. -/
def sanitizeName (name : List Char) : List Char :=
  (trim name).map (fun c => if safeNameCh c then c else '_')

/-- What the claim's words "sanitized out" say instead: unsafe characters
deleted from the name.  Kept only to compare against the code. -/
def sanitizeOutSpec (name : List Char) : List Char :=
  (trim name).filter safeNameCh

/-! ## Reachable manager states (for the uniqueness invariant) -/

/-- One public mutating operation of the manager. -/
inductive MOp where
  | add (text notes : List Char) (now : DateTime) (enabled : Bool)
      (resp : List Char) : MOp
  | remove (i : Int) : MOp
  | clear : MOp
  | refresh (enabled : Bool) (resp : List Char) : MOp

def stepOp (st : List Citation) : MOp → List Citation
  | .add text notes now enabled resp => (addCitation text notes st now enabled resp).2
  | .remove i => removeCitation st i
  | .clear => clearAll st
  | .refresh enabled resp => updateSummaries enabled resp st

/-- The state after a sequence of operations, starting from the empty
library. -/
def runOps (ops : List MOp) : List Citation := ops.foldl stepOp []

/-! ## Lemmas about trimming -/

lemma dropWhile_head?_false (p : Char → Bool) (l : List Char) :
    ∀ a, (l.dropWhile p).head? = some a → p a = false := by
  induction l with
  | nil => simp [List.dropWhile]
  | cons c rest ih =>
    intro a h
    by_cases hc : p c
    · rw [List.dropWhile_cons_of_pos hc] at h
      exact ih a h
    · rw [List.dropWhile_cons_of_neg hc] at h
      simp only [List.head?_cons, Option.some.injEq] at h
      subst h
      simpa using hc

lemma dropWhile_eq_self_of_head (p : Char → Bool) (l : List Char)
    (h : ∀ a, l.head? = some a → p a = false) : l.dropWhile p = l := by
  cases l with
  | nil => rfl
  | cons c rest =>
    have hc := h c rfl
    rw [List.dropWhile_cons_of_neg (by simp [hc])]

lemma ltrim_head?_false (l : List Char) :
    ∀ a, (ltrim l).head? = some a → isSpaceCh a = false :=
  dropWhile_head?_false isSpaceCh l

lemma ltrim_idem (l : List Char) : ltrim (ltrim l) = ltrim l :=
  dropWhile_eq_self_of_head _ _ (ltrim_head?_false l)

lemma rtrim_pre (l : List Char) : rtrim l <+: l := by
  have h1 : l.reverse.dropWhile isSpaceCh <:+ l.reverse := List.dropWhile_suffix _
  have h2 : (l.reverse.dropWhile isSpaceCh).reverse <+: l.reverse.reverse :=
    List.reverse_prefix.mpr h1
  simpa [rtrim] using h2

lemma head?_of_pre (l₁ l₂ : List Char) (h : l₁ <+: l₂) (hne : l₁ ≠ []) :
    l₁.head? = l₂.head? := by
  obtain ⟨t, rfl⟩ := h
  cases l₁ with
  | nil => exact absurd rfl hne
  | cons c rest => rfl

lemma rtrim_idem (l : List Char) : rtrim (rtrim l) = rtrim l := by
  unfold rtrim
  rw [List.reverse_reverse]
  have : (l.reverse.dropWhile isSpaceCh).dropWhile isSpaceCh
      = l.reverse.dropWhile isSpaceCh :=
    dropWhile_eq_self_of_head _ _ (dropWhile_head?_false isSpaceCh l.reverse)
  rw [this]

lemma ltrim_rtrim_ltrim (l : List Char) : ltrim (rtrim (ltrim l)) = rtrim (ltrim l) := by
  apply dropWhile_eq_self_of_head
  intro a ha
  by_cases hr : rtrim (ltrim l) = []
  · rw [hr] at ha
    simp at ha
  · have hpre : rtrim (ltrim l) <+: ltrim l := rtrim_pre (ltrim l)
    have : (rtrim (ltrim l)).head? = (ltrim l).head? := head?_of_pre _ _ hpre hr
    exact ltrim_head?_false l a (this ▸ ha)

lemma trim_idem (l : List Char) : trim (trim l) = trim l := by
  show rtrim (ltrim (rtrim (ltrim l))) = rtrim (ltrim l)
  rw [ltrim_rtrim_ltrim, rtrim_idem]

lemma ltrim_suffix (l : List Char) : ltrim l <:+ l := List.dropWhile_suffix _

lemma trim_inf (l : List Char) : trim l <:+: l :=
  ( List.IsPrefix.isInfix (rtrim_pre (ltrim l))).trans ( List.IsSuffix.isInfix (ltrim_suffix l))

/-! ## `isSubstring` agrees with `List.IsInfix` -/

lemma isSubstring_iff_inf (needle l : List Char) :
    isSubstring needle l = true ↔ needle <:+: l := by
  induction l with
  | nil =>
    simp only [isSubstring, List.isEmpty_iff, List.infix_nil]
  | cons c rest ih =>
    simp only [isSubstring, Bool.or_eq_true, List.isPrefixOf_iff_prefix, ih,
      List.infix_cons_iff]

lemma isSubstring_of_trim (needle l : List Char)
    (h : isSubstring needle (trim l) = true) : isSubstring needle l = true := by
  rw [isSubstring_iff_inf] at h ⊢
  exact h.trans (trim_inf l)

/-! ## Classifier lemmas -/

/-- The literal `PMID: 12345`. -/
def pm12345 : List Char :=
  'P' :: 'M' :: 'I' :: 'D' :: ':' :: ' ' :: '1' :: '2' :: '3' :: '4' :: '5' :: []

/-- The literal `12345`. -/
def num12345 : List Char := '1' :: '2' :: '3' :: '4' :: '5' :: []

/-- After reading `PMID: 1` the pattern `PMID:\s*\d+` is already satisfied,
whatever follows. -/
lemma matchesPref_pmid7 (rest : List Char) :
    matchesPref pmidRx ('P' :: 'M' :: 'I' :: 'D' :: ':' :: ' ' :: '1' :: rest) = true := by
  cases rest with
  | nil => with_unfolding_all rfl
  | cons c r => with_unfolding_all rfl

lemma searchRx_pmid_of_substring (t : List Char)
    (h : isSubstring pm12345 t = true) : searchRx pmidRx t = true := by
  induction t with
  | nil => simp [isSubstring, pm12345] at h
  | cons c rest ih =>
    rw [isSubstring] at h
    rcases Bool.or_eq_true _ _ |>.mp h with hp | hs
    · obtain ⟨r, hr⟩ := List.isPrefixOf_iff_prefix.mp hp
      rw [searchRx]
      have : matchesPref pmidRx (c :: rest) = true := by
        rw [← hr]
        exact matchesPref_pmid7 ('2' :: '3' :: '4' :: '5' :: r)
      rw [this, Bool.true_or]
    · rw [searchRx, ih hs, Bool.or_true]

lemma strong_first_true (x y z : Bool) :
    (decide (1 ≤ countTrue [true, x, y]) || z) = true := by
  cases x <;> cases y <;> cases z <;> decide

/-- A text whose trimmed form is long enough, contains no code-indicator
fragment and matches the PMID pattern is classified as a citation —
whatever the other three indicators compute to. -/
lemma isPubmedCitation_of_pmid (text : List Char)
    (h1 : 20 ≤ (trim text).length)
    (h2 : codeIndicators.any (fun ind => isSubstring ind (trim text)) = false)
    (h3 : searchRx pmidRx (trim text) = true) :
    isPubmedCitation text = true := by
  unfold isPubmedCitation
  rw [if_neg (by omega), if_neg (by simp [h2]), h3]
  exact strong_first_true _ _ _

/-- At an occurrence of the literal `PMID: 12345` the extraction scan
matches, and its group is `12345` extended by whatever digits follow. -/
lemma pmidGroupAt_at_occ (r : List Char) :
    pmidGroupAt (pm12345 ++ r)
      = some ('1' :: '2' :: '3' :: '4' :: '5' :: (r.takeWhile isDigitCh)) := by
  with_unfolding_all rfl

lemma searchPmidCI_all12345 (text : List Char)
    (h4 : isSubstring pm12345 text = true)
    (h5 : ∀ i, i ≤ text.length →
      pmidGroupAt (text.drop i) = none ∨ pmidGroupAt (text.drop i) = some num12345) :
    searchPmidCI text = some num12345 := by
  induction text with
  | nil => simp [isSubstring, pm12345] at h4
  | cons c rest ih =>
    rcases h0 : pmidGroupAt (c :: rest) with _ | ds
    · rw [isSubstring] at h4
      rcases Bool.or_eq_true _ _ |>.mp h4 with hp | hs
      · obtain ⟨r, hr⟩ := List.isPrefixOf_iff_prefix.mp hp
        rw [← hr, pmidGroupAt_at_occ] at h0
        exact absurd h0 (by simp)
      · rw [searchPmidCI, h0]
        exact ih hs (fun i hi => by
          have := h5 (i + 1) (by simpa using Nat.succ_le_succ hi)
          simpa using this)
    · rcases h5 0 (Nat.zero_le _) with hn | hsome
      · rw [List.drop_zero] at hn
        rw [hn] at h0
        cases h0
      · rw [List.drop_zero] at hsome
        rw [searchPmidCI, h0]
        rw [h0] at hsome
        simpa using hsome

/-- Claim C4 (counterexample): the claim quantifies over every string
containing `PMID: 12345` with no further precondition, but (first input)
an 11-character string fails the classifier's 20-character minimum, and
(second input) an earlier case-insensitive `pmid: 99` occurrence makes the
extraction return `99`, not `12345`. -/
theorem c4_counterexample :
    (isSubstring pm12345 (("PMID: 12345").toList) = true ∧
      isPubmedCitation (("PMID: 12345").toList) = false) ∧
    (isSubstring pm12345 (("pmid: 99 aaaaaaaaaa PMID: 12345").toList) = true ∧
      isPubmedCitation (("pmid: 99 aaaaaaaaaa PMID: 12345").toList) = true ∧
      extractIdentifier (("pmid: 99 aaaaaaaaaa PMID: 12345").toList)
        = some ('9' :: '9' :: []) ∧
      ('9' :: '9' :: []) ≠ num12345) := by
  decide

/-- Claim C4 (amended): for every input whose trimmed form contains
`PMID: 12345`, is at least 20 characters long and contains no
code-indicator fragment, classify returns true; and when moreover every
case-insensitive `PMID:`-digits occurrence in the raw input carries the
digit run `12345`, extractIdentifier returns `12345`. -/
theorem c4_pmid_classify_extract (text : List Char)
    (h1 : isSubstring pm12345 (trim text) = true)
    (h2 : 20 ≤ (trim text).length)
    (h3 : (codeIndicators.any fun ind => isSubstring ind (trim text)) = false)
    (h5 : ∀ i, i ≤ text.length →
      pmidGroupAt (text.drop i) = none ∨ pmidGroupAt (text.drop i) = some num12345) :
    isPubmedCitation text = true ∧ extractIdentifier text = some num12345 := by
  refine ⟨isPubmedCitation_of_pmid text h2 h3 (searchRx_pmid_of_substring _ h1), ?_⟩
  exact searchPmidCI_all12345 text (isSubstring_of_trim _ _ h1) h5

/-- Claim C4 (witness): the amended theorem applied to a concrete
citation string. -/
theorem c4_pmid_classify_extract_witness :
    isPubmedCitation (("J Brain. PMID: 12345.").toList) = true ∧
    extractIdentifier (("J Brain. PMID: 12345.").toList) = some num12345 :=
  c4_pmid_classify_extract (("J Brain. PMID: 12345.").toList)
    (by decide) (by decide) (by decide) (by decide)

/-! ## Lemmas about `updateSummaries` and `addCitation` -/

/-- A summary refresh only rewrites `summary` fields: the result is a map
of the input that keeps `text`, `timestamp`, `pmid` and `notes`. -/
lemma updateSummaries_shape (e : Bool) (r : List Char) (st : List Citation) :
    ∃ f : Citation → List Char,
      updateSummaries e r st = st.map (fun c => { c with summary := f c }) := by
  cases e with
  | false =>
    refine ⟨fun c => c.summary, ?_⟩
    have h1 : updateSummaries false r st = st := by simp [updateSummaries]
    rw [h1, show (fun (c : Citation) => { c with summary := c.summary }) = id from rfl,
      List.map_id]
  | true =>
    by_cases hst : (st.map (fun c => c.text)).isEmpty
    · refine ⟨fun c => c.summary, ?_⟩
      have h1 : updateSummaries true r st = st := by simp [updateSummaries, hst]
      rw [h1, show (fun (c : Citation) => { c with summary := c.summary }) = id from rfl,
        List.map_id]
    · refine ⟨fun c =>
        match dictLookup (generateCitationSummaries true (st.map (fun c => c.text)) r)
          c.text with
        | some s => s
        | none => c.summary, ?_⟩
      have h1 : updateSummaries true r st = st.map (fun c =>
          match dictLookup (generateCitationSummaries true
            (st.map (fun c => c.text)) r) c.text with
          | some s => { c with summary := s }
          | none => c) := by
        simp [updateSummaries, hst]
      rw [h1]
      refine List.map_congr_left (fun c _ => ?_)
      cases hl : dictLookup (generateCitationSummaries true
          (st.map (fun c => c.text)) r) c.text <;> simp [hl]

lemma find?_append_last (p : Citation → Bool) (l : List Citation) (x : Citation)
    (hl : ∀ c ∈ l, p c = false) (hx : p x = true) :
    (l ++ [x]).find? p = some x := by
  induction l with
  | nil => simp [List.find?, hx]
  | cons c rest ih =>
    have hc := hl c (List.mem_cons_self c rest)
    simp only [List.cons_append, List.find?, hc]
    exact ih (fun d hd => hl d (List.mem_cons_of_mem c hd))

lemma updFirstNotes_append_last (l : List Citation) (x : Citation)
    (key nn : List Char) (hl : ∀ c ∈ l, c.text ≠ key) (hx : x.text = key) :
    updFirstNotes (l ++ [x]) key nn = l ++ [{ x with notes := nn }] := by
  induction l with
  | nil => simp [updFirstNotes, hx]
  | cons c rest ih =>
    have hc : decide (c.text = key) = false := by
      simpa using hl c (List.mem_cons_self c rest)
    simp only [List.cons_append, updFirstNotes, hc, Bool.false_eq_true, if_false,
      List.append_eq]
    rw [ih (fun d hd => hl d (List.mem_cons_of_mem c hd))]

/-- The record lines 129-135 build for a fresh text. -/
def newCitation (text notes : List Char) (now : DateTime) : Citation :=
  { text := trim text, timestamp := now, pmid := extractIdentifier text,
    notes := notes, summary := [] }

/-- Unfolding the first call of the two-call scenarios: an accepted,
not-yet-stored text is appended (notes taken verbatim) and the summary
refresh runs over the extended list. -/
lemma addCitation_new (text notes : List Char) (st : List Citation)
    (now : DateTime) (e : Bool) (r : List Char)
    (hc : isPubmedCitation text = true)
    (hnot : ∀ c ∈ st, c.text ≠ trim text) :
    addCitation text notes st now e r =
      (.pyBool true, updateSummaries e r (st ++ [newCitation text notes now])) := by
  have hfind : st.find? (fun c => decide (c.text = trim text)) = none :=
    List.find?_eq_none.mpr (fun x hx => by simpa using hnot x hx)
  simp only [addCitation, hc, Bool.not_true, Bool.false_eq_true, if_false, hfind,
    List.append_eq, newCitation]

/-- Unfolding a call that hits an already-stored text. -/
lemma addCitation_dup (text notes : List Char) (st : List Citation)
    (now : DateTime) (e : Bool) (r : List Char) (ex : Citation)
    (hc : isPubmedCitation text = true)
    (hfind : st.find? (fun c => decide (c.text = trim text)) = some ex) :
    addCitation text notes st now e r =
      if !(trim notes).isEmpty then
        (.pyStr noteAppendedStr, updFirstNotes st (trim text)
          (if !ex.notes.isEmpty then (ex.notes ++ noteSep) ++ trim notes
           else trim notes))
      else (.pyBool false, st) := by
  simp only [addCitation, hc, Bool.not_true, Bool.false_eq_true, if_false, hfind,
    List.append_eq]

/-- After an accepted fresh add, the stored text `trim text` is found, and
the record found is the appended one with its summary possibly refreshed. -/
lemma find?_after_new (text notes : List Char) (st : List Citation)
    (now : DateTime) (e : Bool) (r : List Char)
    (hnot : ∀ c ∈ st, c.text ≠ trim text) :
    ∃ f : Citation → List Char,
      updateSummaries e r (st ++ [newCitation text notes now]) =
        st.map (fun c => { c with summary := f c }) ++
          [{ newCitation text notes now with
             summary := f (newCitation text notes now) }] ∧
      (updateSummaries e r (st ++ [newCitation text notes now])).find?
          (fun c => decide (c.text = trim text)) =
        some { newCitation text notes now with
               summary := f (newCitation text notes now) } := by
  obtain ⟨f, hf⟩ := updateSummaries_shape e r (st ++ [newCitation text notes now])
  rw [hf, List.map_append]
  refine ⟨f, by simp, ?_⟩
  apply find?_append_last
  · intro c hcmem
    obtain ⟨x, hx, rfl⟩ := List.mem_map.mp hcmem
    simpa using hnot x hx
  · simp [newCitation]

lemma filter_notes_append_last (l : List Citation) (x : Citation) (key : List Char)
    (hl : ∀ c ∈ l, c.text ≠ key) (hx : x.text = key) :
    ((l ++ [x]).filter (fun c => decide (c.text = key))).map (fun c => c.notes)
      = [x.notes] := by
  have hfl : l.filter (fun c => decide (c.text = key)) = [] :=
    List.filter_eq_nil_iff.mpr (fun a ha => by simpa using hl a ha)
  simp [List.filter_append, hfl, hx]

/-! ## Claim C1 -/

/-- Claim C1: for a classifier-accepted text not yet stored, the first
`addCitation` returns the Added outcome (the value `True`), and an
immediate second call with an empty note returns the DuplicateIgnored
outcome (the value `False`) and leaves the stored list — its length and
every record — unchanged. -/
theorem c1_duplicate_add_idempotent (text note : List Char) (st : List Citation)
    (n1 n2 : DateTime) (e1 e2 : Bool) (p1 p2 : List Char)
    (hc : isPubmedCitation text = true)
    (hnot : ∀ c ∈ st, c.text ≠ trim text) :
    (addCitation text note st n1 e1 p1).1 = PyRet.pyBool true ∧
    (addCitation text [] (addCitation text note st n1 e1 p1).2 n2 e2 p2).1
      = PyRet.pyBool false ∧
    (addCitation text [] (addCitation text note st n1 e1 p1).2 n2 e2 p2).2
      = (addCitation text note st n1 e1 p1).2 := by
  have h1 := addCitation_new text note st n1 e1 p1 hc hnot
  obtain ⟨f, hshape, hfind2⟩ := find?_after_new text note st n1 e1 p1 hnot
  have h2 := addCitation_dup text []
    (updateSummaries e1 p1 (st ++ [newCitation text note n1])) n2 e2 p2 _ hc hfind2
  rw [h1]
  dsimp only
  rw [h2]
  simp only [show trim ([] : List Char) = [] from rfl, List.isEmpty_nil,
    Bool.not_true, Bool.false_eq_true, if_false]
  exact ⟨trivial, trivial, trivial⟩

def dtW : DateTime :=
  { year := 2024, month := 1, day := 2, hour := 3, minute := 4, second := 5,
    microsecond := 0 }

def w20 : List Char := ("PMID: 12345 aaaaaaaa").toList

/-- Claim C1 (witness): the scenario run on a concrete citation string
over the empty library. -/
theorem c1_duplicate_add_idempotent_witness :
    (addCitation w20 (("n").toList) [] dtW false []).1 = PyRet.pyBool true ∧
    (addCitation w20 [] (addCitation w20 (("n").toList) [] dtW false []).2 dtW false []).1
      = PyRet.pyBool false ∧
    (addCitation w20 [] (addCitation w20 (("n").toList) [] dtW false []).2 dtW false []).2
      = (addCitation w20 (("n").toList) [] dtW false []).2 :=
  c1_duplicate_add_idempotent w20 (("n").toList) [] dtW dtW false false [] []
    (by decide) (by simp)

/-! ## Claim C2 -/

/-- Claim C2 (counterexample): the claim quantifies over every non-empty
second note, but a whitespace-only note `" "` strips to nothing, so the
second call returns `False` (DuplicateIgnored), not the promised
NoteAppended outcome. -/
theorem c2_counterexample :
    isPubmedCitation w20 = true ∧
    (" ").toList ≠ [] ∧
    (addCitation w20 ((" ").toList)
        (addCitation w20 (("a").toList) [] dtW false []).2 dtW false []).1
      = PyRet.pyBool false ∧
    PyRet.pyBool false ≠ PyRet.pyStr noteAppendedStr := by
  decide

/-- Claim C2 (amended): for a classifier-accepted text not yet stored, a
non-empty first note `a` and a second note `b` that is non-empty after
stripping, the two calls return Added then NoteAppended and the single
stored record for the text ends with notes `a`, the fixed separator, and
the stripped `b`, in that order. -/
theorem c2_note_accumulation (text a b : List Char) (st : List Citation)
    (n1 n2 : DateTime) (e1 e2 : Bool) (p1 p2 : List Char)
    (hc : isPubmedCitation text = true)
    (hnot : ∀ c ∈ st, c.text ≠ trim text)
    (ha : a ≠ [])
    (hb : trim b ≠ []) :
    (addCitation text a st n1 e1 p1).1 = PyRet.pyBool true ∧
    (addCitation text b (addCitation text a st n1 e1 p1).2 n2 e2 p2).1
      = PyRet.pyStr noteAppendedStr ∧
    (((addCitation text b (addCitation text a st n1 e1 p1).2 n2 e2 p2).2.filter
        (fun c => decide (c.text = trim text))).map (fun c => c.notes))
      = [(a ++ noteSep) ++ trim b] := by
  have h1 := addCitation_new text a st n1 e1 p1 hc hnot
  obtain ⟨f, hshape, hfind2⟩ := find?_after_new text a st n1 e1 p1 hnot
  have h2 := addCitation_dup text b
    (updateSummaries e1 p1 (st ++ [newCitation text a n1])) n2 e2 p2 _ hc hfind2
  have hbe : (trim b).isEmpty = false := by
    cases hbb : trim b with
    | nil => exact absurd hbb hb
    | cons x xs => rfl
  have hae : ({ newCitation text a n1 with
      summary := f (newCitation text a n1) } : Citation).notes.isEmpty = false := by
    show a.isEmpty = false
    cases haa : a with
    | nil => exact absurd haa ha
    | cons x xs => rfl
  rw [h1]
  dsimp only
  rw [h2]
  simp only [hbe, Bool.not_false, if_true, hae]
  refine ⟨trivial, trivial, ?_⟩
  rw [hshape]
  rw [updFirstNotes_append_last _ _ _ _
    (fun c hcmem => by
      obtain ⟨x, hx, rfl⟩ := List.mem_map.mp hcmem
      simpa using hnot x hx)
    (by simp [newCitation])]
  rw [filter_notes_append_last _ _ _
    (fun c hcmem => by
      obtain ⟨x, hx, rfl⟩ := List.mem_map.mp hcmem
      simpa using hnot x hx)
    (by simp [newCitation])]
  rfl

/-- Claim C2 (witness): the amended scenario on a concrete citation
string. -/
theorem c2_note_accumulation_witness :
    (addCitation w20 (("a").toList) [] dtW false []).1 = PyRet.pyBool true ∧
    (addCitation w20 (("b").toList)
        (addCitation w20 (("a").toList) [] dtW false []).2 dtW false []).1
      = PyRet.pyStr noteAppendedStr ∧
    (((addCitation w20 (("b").toList)
        (addCitation w20 (("a").toList) [] dtW false []).2 dtW false []).2.filter
        (fun c => decide (c.text = trim w20))).map (fun c => c.notes))
      = [((("a").toList ++ noteSep) ++ trim (("b").toList))] :=
  c2_note_accumulation w20 (("a").toList) (("b").toList) [] dtW dtW false false [] []
    (by decide) (by simp) (by decide) (by decide)

/-! ## Claim C10 -/

/-- Claim C10: the code's actual return values: classifier rejection and
duplicate-with-empty-note both return the bool `False` (so Rejected and
DuplicateIgnored are indistinguishable from the return value), while the
note-append case returns the string `"note_appended"`, which is not a
bool at all — the declared `bool` return type does not hold. -/
theorem c10_return_values :
    (∀ text notes st now e r, isPubmedCitation text = false →
      addCitation text notes st now e r = (PyRet.pyBool false, st)) ∧
    (∀ text notes st now e r ex, isPubmedCitation text = true →
      st.find? (fun c => decide (c.text = trim text)) = some ex →
      trim notes = [] →
      addCitation text notes st now e r = (PyRet.pyBool false, st)) ∧
    (∀ text notes st now e r ex, isPubmedCitation text = true →
      st.find? (fun c => decide (c.text = trim text)) = some ex →
      trim notes ≠ [] →
      (addCitation text notes st now e r).1 = PyRet.pyStr noteAppendedStr) ∧
    (∀ s b, PyRet.pyStr s ≠ PyRet.pyBool b) := by
  refine ⟨?_, ?_, ?_, ?_⟩
  · intro text notes st now e r h
    simp [addCitation, h]
  · intro text notes st now e r ex hc hfind hn
    rw [addCitation_dup text notes st now e r ex hc hfind]
    simp [hn]
  · intro text notes st now e r ex hc hfind hn
    rw [addCitation_dup text notes st now e r ex hc hfind]
    have hne : (trim notes).isEmpty = false := by
      cases hnn : trim notes with
      | nil => exact absurd hnn hn
      | cons x xs => rfl
    simp [hne]
  · intro s b
    simp

def cW : Citation :=
  { text := trim w20, timestamp := dtW, pmid := some num12345,
    notes := [], summary := [] }

/-- Claim C10 (witness): each return-value case exercised at a concrete
input. -/
theorem c10_return_values_witness :
    addCitation (("x").toList) (("n").toList) [] dtW false []
      = (PyRet.pyBool false, []) ∧
    addCitation w20 [] [cW] dtW false [] = (PyRet.pyBool false, [cW]) ∧
    (addCitation w20 (("m").toList) [cW] dtW false []).1
      = PyRet.pyStr noteAppendedStr :=
  ⟨c10_return_values.1 (("x").toList) (("n").toList) [] dtW false [] (by decide),
   c10_return_values.2.1 w20 [] [cW] dtW false [] cW (by decide) (by decide)
     (by decide),
   c10_return_values.2.2.1 w20 (("m").toList) [cW] dtW false [] cW (by decide)
     (by decide) (by decide)⟩

/-! ## Claim C6 -/

/-- Claim C6 (counterexample): `switchLibrary` builds the per-library file
name from the given name verbatim; for the name `my lib` the unsafe space
survives into the file name, which therefore differs from the name with
unsafe characters sanitized out. -/
theorem c6_counterexample :
    dataFileName (("my lib").toList) = ((".pubmed_citations_my lib.json").toList) ∧
    ((("my lib").toList).all safeNameCh) = false ∧
    dataFileName (("my lib").toList) ≠ dataFileName (sanitizeOutSpec (("my lib").toList)) := by
  decide

/-- Claim C6 (amended): only the GUI's new-library dialog sanitizes names,
and it does so by replacing each character outside the safe set with an
underscore (no name is rejected); `switchLibrary` and the constructor
insert the given name into the file name verbatim, without sanitizing. -/
theorem c6_name_sanitization (name : List Char) :
    ((sanitizeName name).all safeNameCh) = true ∧
    dataFileName name =
      (((".pubmed_citations_").toList ++ name) ++ ((".json").toList)) := by
  constructor
  · refine List.all_eq_true.mpr ?_
    intro x hx
    obtain ⟨y, hy, rfl⟩ := List.mem_map.mp hx
    by_cases hs : safeNameCh y
    · simp [hs]
    · simp only [if_neg hs]
      decide
  · rfl

/-! ## Claim C8 -/

/-- Claim C8: `removeCitation` with an in-bounds index removes exactly the
record at that position, keeping the others in their original relative
order; any other integer index (negative or too large) is a silent no-op. -/
theorem c8_remove_bounds (st : List Citation) (i : Int) :
    (0 ≤ i → i < st.length → removeCitation st i
        = st.take i.toNat ++ st.drop (i.toNat + 1)) ∧
    (¬(0 ≤ i ∧ i < st.length) → removeCitation st i = st) := by
  constructor
  · intro h1 h2
    rw [removeCitation, if_pos ⟨h1, h2⟩, List.eraseIdx_eq_take_drop_succ]
  · intro h
    rw [removeCitation, if_neg h]

def cB : Citation := { cW with notes := ("b").toList }

def cC : Citation := { cW with notes := ("c").toList }

/-- Claim C8 (witness): removing index 1 from a three-record library, and
two out-of-bounds no-ops. -/
theorem c8_remove_bounds_witness :
    removeCitation [cW, cB, cC] 1
      = (([cW, cB, cC].take 1) ++ ([cW, cB, cC].drop 2)) ∧
    removeCitation [cW, cB, cC] 5 = [cW, cB, cC] ∧
    removeCitation [cW, cB, cC] (-1) = [cW, cB, cC] :=
  ⟨(c8_remove_bounds [cW, cB, cC] 1).1 (by decide) (by decide),
   (c8_remove_bounds [cW, cB, cC] 5).2 (by decide),
   (c8_remove_bounds [cW, cB, cC] (-1)).2 (by decide)⟩

/-! ## Claim C9 -/

/-- Claim C9: with a disabled provider the summary refresh leaves the
stored records entirely unchanged, and every call of the provider itself
returns the empty mapping. -/
theorem c9_disabled_noop :
    (∀ resp st, updateSummaries false resp st = st) ∧
    (∀ citations resp, generateCitationSummaries false citations resp = []) := by
  constructor
  · intro resp st
    simp [updateSummaries]
  · intro citations resp
    simp [generateCitationSummaries]

/-! ## Digit and timestamp round-trip lemmas -/

lemma digit_facts : ∀ d, d < 10 →
    (isDigitCh (digitCh d) = true ∧ digitVal (digitCh d) = d) := by
  decide

lemma parseFixedAux_pad (w : Nat) : ∀ (acc n : Nat) (rest : List Char),
    n < 10 ^ w →
    parseFixedAux w acc (padDigits w n ++ rest) = some (acc * 10 ^ w + n, rest) := by
  induction w with
  | zero =>
    intro acc n rest h
    have hn : n = 0 := by omega
    subst hn
    simp [padDigits, parseFixedAux]
  | succ w ih =>
    intro acc n rest h
    have hd : n / 10 ^ w < 10 := by
      rw [Nat.div_lt_iff_lt_mul (Nat.pos_pow_of_pos w (by omega))]
      calc n < 10 ^ (w + 1) := h
        _ = 10 * 10 ^ w := by ring
    obtain ⟨hdig, hval⟩ := digit_facts _ hd
    rw [padDigits, List.cons_append, parseFixedAux, hdig, if_pos rfl, hval]
    rw [ih _ _ _ (Nat.mod_lt _ (Nat.pos_pow_of_pos w (by omega)))]
    have hqr : n / 10 ^ w * 10 ^ w + n % 10 ^ w = n := Nat.div_add_mod' n (10 ^ w)
    have harith : (acc * 10 + n / 10 ^ w) * 10 ^ w + n % 10 ^ w
        = acc * 10 ^ (w + 1) + n := by
      rw [Nat.add_mul, Nat.add_assoc, hqr, pow_succ]
      ring
    rw [harith]

lemma parseFixed_pad (w n : Nat) (rest : List Char) (h : n < 10 ^ w) :
    parseFixed w (padDigits w n ++ rest) = some (n, rest) := by
  rw [parseFixed, parseFixedAux_pad w 0 n rest h, Nat.zero_mul, Nat.zero_add]

lemma parseUsec_pad (us : Nat) (h : us < 10 ^ 6) :
    parseUsec ('.' :: padDigits 6 us) = some us := by
  rw [parseUsec, show padDigits 6 us = padDigits 6 us ++ [] from
    (List.append_nil _).symm, parseFixed_pad 6 us [] h]
  rfl

lemma parseClock_pad (hh mi s : Nat) (suffix : List Char) (h : s < 10 ^ 2) :
    parseClock hh mi (padDigits 2 s ++ suffix) = some (hh, mi, s, suffix) := by
  rw [parseClock, parseFixed_pad 2 s suffix h]

lemma parseClock2_pad (hh mi s : Nat) (suffix : List Char)
    (h1 : mi < 10 ^ 2) (h2 : s < 10 ^ 2) :
    parseClock2 hh (padDigits 2 mi ++ ':' :: (padDigits 2 s ++ suffix))
      = some (hh, mi, s, suffix) := by
  rw [parseClock2, parseFixed_pad 2 mi _ h1]
  simp only [expectCh, beq_self_eq_true, if_pos]
  exact parseClock_pad hh mi s suffix h2

lemma parseClock3_pad (hh mi s : Nat) (suffix : List Char)
    (h0 : hh < 10 ^ 2) (h1 : mi < 10 ^ 2) (h2 : s < 10 ^ 2) :
    parseClock3 (padDigits 2 hh ++ ':' ::
        (padDigits 2 mi ++ ':' :: (padDigits 2 s ++ suffix)))
      = some (hh, mi, s, suffix) := by
  rw [parseClock3, parseFixed_pad 2 hh _ h0]
  simp only [expectCh, beq_self_eq_true, if_pos]
  exact parseClock2_pad hh mi s suffix h1 h2

lemma parseDate_pad (y mo d : Nat) (suffix : List Char)
    (h0 : y < 10 ^ 4) (h1 : mo < 10 ^ 2) (h2 : d < 10 ^ 2) :
    parseDate (padDigits 4 y ++ '-' ::
        (padDigits 2 mo ++ '-' :: (padDigits 2 d ++ suffix)))
      = some (y, mo, d, suffix) := by
  rw [parseDate, parseFixed_pad 4 y _ h0]
  simp only [expectCh, beq_self_eq_true, if_pos]
  rw [parseFixed_pad 2 mo _ h1]
  simp only [expectCh, beq_self_eq_true, if_pos]
  rw [parseFixed_pad 2 d _ h2]

lemma daysInMonth_le (y m : Nat) : daysInMonth y m ≤ 31 := by
  unfold daysInMonth
  split
  · split <;> omega
  · split <;> omega

/-- The central persistence fact: parsing back a canonical timestamp
recovers it exactly. -/
lemma fromisoformat_isoformat (t : DateTime) (h : dtValid t = true) :
    fromisoformat (isoformat t) = some t := by
  obtain ⟨y, mo, d, hh, mi, s, us⟩ := t
  have hb := h
  simp only [dtValid, decide_eq_true_eq] at hb
  obtain ⟨b1, b2, b3, b4, b5, b6, b7, b8, b9, b10⟩ := hb
  have hdm := daysInMonth_le y mo
  have hy : y < 10 ^ 4 := by norm_num; omega
  have hmo : mo < 10 ^ 2 := by norm_num; omega
  have hd : d < 10 ^ 2 := by norm_num; omega
  have hhh : hh < 10 ^ 2 := by norm_num; omega
  have hmi : mi < 10 ^ 2 := by norm_num; omega
  have hs : s < 10 ^ 2 := by norm_num; omega
  have hus : us < 10 ^ 6 := by norm_num; omega
  rw [isoformat, fromisoformat]
  by_cases huz : us = 0
  · subst huz
    simp only [beq_self_eq_true, if_pos]
    rw [show padDigits 2 s ++ ([] : List Char) = padDigits 2 s ++ [] from rfl]
    rw [parseDate_pad y mo d _ hy hmo hd]
    simp only [expectCh, beq_self_eq_true, if_pos]
    rw [parseClock3_pad hh mi s [] hhh hmi hs]
    dsimp only
    simp only [parseUsec]
    rw [mkDT, if_pos h]
  · have husne : (us == 0) = false := by
      simp [huz]
    rw [husne]
    simp only [Bool.false_eq_true, if_false]
    rw [parseDate_pad y mo d _ hy hmo hd]
    simp only [expectCh, beq_self_eq_true, if_pos]
    rw [parseClock3_pad hh mi s _ hhh hmi hs]
    dsimp only
    rw [parseUsec_pad us hus]
    dsimp only
    rw [mkDT, if_pos h]

/-! ## Claim C3 -/

lemma parseItem_saveItem (c : Citation) (h : dtValid c.timestamp = true) :
    parseItem (saveItem c) = .ok c := by
  unfold parseItem saveItem
  dsimp only
  rw [fromisoformat_isoformat c.timestamp h]
  rfl

lemma loadAux_saveCitations (l : List Citation)
    (h : ∀ c ∈ l, dtValid c.timestamp = true) :
    loadAux (saveCitations l) = .ok l := by
  induction l with
  | nil => rfl
  | cons c rest ih =>
    have hc := h c (List.mem_cons_self c rest)
    simp only [saveCitations, List.map_cons, loadAux, parseItem_saveItem c hc]
    have ihr := ih (fun x hx => h x (List.mem_cons_of_mem c hx))
    simp only [saveCitations] at ihr
    rw [ihr]

/-- Claim C3: serializing an in-memory library and re-loading the result
on a fresh store reproduces the records exactly — order and every field
(text, timestamp, identifier, notes, summary).  The one hypothesis is
that each timestamp is a value `datetime` itself can hold. -/
theorem c3_save_load_roundtrip (l : List Citation)
    (h : ∀ c ∈ l, dtValid c.timestamp = true) :
    loadCitations (.parsed (saveCitations l)) = l := by
  simp only [loadCitations, loadAux_saveCitations l h]

def dtX : DateTime :=
  { year := 1999, month := 12, day := 31, hour := 23, minute := 59,
    second := 59, microsecond := 999999 }

def cX : Citation := { cB with timestamp := dtX }

/-- Claim C3 (witness): the round trip on a concrete two-record library
(one record with a microsecond-carrying timestamp). -/
theorem c3_save_load_roundtrip_witness :
    loadCitations (.parsed (saveCitations [cW, cX])) = [cW, cX] :=
  c3_save_load_roundtrip [cW, cX] (by decide)

/-! ## Claim C7 -/

lemma parseItem_bad (it : PItem) (h : itemBad it = true) :
    parseItem it = .error () := by
  unfold itemBad at h
  cases ht : it.text with
  | none => simp [parseItem, ht]
  | some tx =>
    rw [ht] at h
    simp only [Option.isNone_some, Bool.false_or] at h
    cases hts : it.timestamp with
    | none => simp [parseItem, ht, hts]
    | some ts =>
      rw [hts] at h
      dsimp only at h
      cases hf : fromisoformat ts with
      | none => simp [parseItem, ht, hts, hf]
      | some t =>
        rw [hf] at h
        simp at h

lemma parseItem_good (it : PItem) (h : itemBad it = false) :
    ∃ c, parseItem it = .ok c := by
  unfold itemBad at h
  cases ht : it.text with
  | none => simp [ht] at h
  | some tx =>
    rw [ht] at h
    simp only [Option.isNone_some, Bool.false_or] at h
    cases hts : it.timestamp with
    | none => rw [hts] at h; simp at h
    | some ts =>
      rw [hts] at h
      dsimp only at h
      cases hf : fromisoformat ts with
      | none => rw [hf] at h; simp at h
      | some t =>
        refine ⟨?_, ?_⟩
        · exact { text := tx, timestamp := t, pmid := joinOpt it.pmid,
                  notes := it.notes.getD [], summary := it.summary.getD [] }
        · simp [parseItem, ht, hts, hf]

lemma loadAux_bad (d : List PItem) (h : d.any itemBad = true) :
    loadAux d = .error () := by
  induction d with
  | nil => simp at h
  | cons it rest ih =>
    rcases List.any_eq_true.mp h with ⟨x, hx, hxbad⟩
    rcases List.mem_cons.mp hx with rfl | hxr
    · rw [loadAux, parseItem_bad x hxbad]
    · rw [loadAux]
      cases hp : parseItem it with
      | error e => cases e; rfl
      | ok c => rw [ih (List.any_eq_true.mpr ⟨x, hxr, hxbad⟩)]

lemma loadAux_good (d : List PItem) (h : d.any itemBad = false) :
    exceptOk (loadAux d) = true := by
  induction d with
  | nil => rfl
  | cons it rest ih =>
    simp only [List.any_cons, Bool.or_eq_false_iff] at h
    obtain ⟨c, hc⟩ := parseItem_good it h.1
    rw [loadAux, hc]
    have := ih h.2
    cases hrest : loadAux rest with
    | error e => rw [hrest] at this; simp [exceptOk] at this
    | ok cs => rfl

/-- Claim C7: a persisted input with a structural error (undecodable file,
record with a missing required field, malformed timestamp) loads as the
empty collection — the error is absorbed, never propagated — while a
well-formed input takes the non-error path. -/
theorem c7_load_fails_closed (inp : LoadInput) :
    (structBad inp = true → loadCitations inp = []) ∧
    (∀ d, inp = LoadInput.parsed d → structBad inp = false →
      exceptOk (loadAux d) = true) := by
  constructor
  · intro h
    cases inp with
    | noFile => simp [structBad] at h
    | badParse => rfl
    | parsed d =>
      simp only [structBad] at h
      simp only [loadCitations, loadAux_bad d h]
  · intro d hd h
    subst hd
    simp only [structBad] at h
    exact loadAux_good d h

def badItem : PItem :=
  { text := some (("t").toList), timestamp := some (("bad").toList),
    pmid := none, notes := none, summary := none }

/-- Claim C7 (witness): a malformed-timestamp record loads as the empty
collection; the serialization of a concrete library is well-formed. -/
theorem c7_load_fails_closed_witness :
    loadCitations (.parsed [badItem]) = [] ∧
    exceptOk (loadAux (saveCitations [cW])) = true :=
  ⟨(c7_load_fails_closed (.parsed [badItem])).1 (by decide),
   (c7_load_fails_closed (.parsed (saveCitations [cW]))).2 (saveCitations [cW])
     rfl (by decide)⟩

/-! ## Claim C5 -/

/-- The strengthened invariant carried through the induction: every stored
text is already trimmed, and stored texts are pairwise distinct. -/
def TextInv (ts : List (List Char)) : Prop :=
  (∀ t ∈ ts, trim t = t) ∧ ts.Pairwise (fun a b => a ≠ b)

lemma textInv_sublist {ts ts' : List (List Char)} (hsub : List.Sublist ts' ts)
    (h : TextInv ts) : TextInv ts' :=
  ⟨fun t ht => h.1 t (hsub.subset ht), h.2.sublist hsub⟩

lemma updateSummaries_texts (e : Bool) (r : List Char) (st : List Citation) :
    (updateSummaries e r st).map (fun c => c.text) = st.map (fun c => c.text) := by
  obtain ⟨f, hf⟩ := updateSummaries_shape e r st
  rw [hf, List.map_map]
  rfl

lemma updFirstNotes_texts (st : List Citation) (k nn : List Char) :
    (updFirstNotes st k nn).map (fun c => c.text) = st.map (fun c => c.text) := by
  induction st with
  | nil => rfl
  | cons c rest ih =>
    rw [updFirstNotes]
    split
    · simp
    · simp only [List.map_cons, ih]

lemma stepOp_preserves (st : List Citation) (op : MOp)
    (h : TextInv (st.map (fun c => c.text))) :
    TextInv ((stepOp st op).map (fun c => c.text)) := by
  cases op with
  | add text notes now e r =>
    dsimp only [stepOp]
    by_cases hc : isPubmedCitation text = true
    · cases hfind : st.find? (fun c => decide (c.text = trim text)) with
      | none =>
        have hnot : ∀ c ∈ st, c.text ≠ trim text := fun c hcm => by
          have := List.find?_eq_none.mp hfind c hcm
          simpa using this
        rw [addCitation_new text notes st now e r hc hnot]
        dsimp only
        rw [updateSummaries_texts, List.map_append]
        constructor
        · intro t ht
          rcases List.mem_append.mp ht with h1 | h2
          · exact h.1 t h1
          · simp only [List.map_cons, List.map_nil, List.mem_singleton,
              newCitation] at h2
            subst h2
            exact trim_idem text
        · rw [List.pairwise_append]
          refine ⟨h.2, by simp, ?_⟩
          intro a ha b hb
          simp only [List.map_cons, List.map_nil, List.mem_singleton,
            newCitation] at hb
          subst hb
          obtain ⟨c, hcm, rfl⟩ := List.mem_map.mp ha
          exact hnot c hcm
      | some ex =>
        rw [addCitation_dup text notes st now e r ex hc hfind]
        by_cases hn : (trim notes).isEmpty
        · simp only [hn, Bool.not_true, Bool.false_eq_true, if_false]
          exact h
        · have hn' : (trim notes).isEmpty = false := by simpa using hn
          simp only [hn', Bool.not_false, if_true]
          rw [updFirstNotes_texts]
          exact h
    · have hc' : isPubmedCitation text = false := by simpa using hc
      simpa [addCitation, hc'] using h
  | remove i =>
    dsimp only [stepOp]
    rw [removeCitation]
    split
    · exact textInv_sublist ((List.eraseIdx_sublist st i.toNat).map _) h
    · exact h
  | clear =>
    exact ⟨by simp [stepOp, clearAll], by simp [stepOp, clearAll]⟩
  | refresh e r =>
    dsimp only [stepOp]
    rw [updateSummaries_texts]
    exact h

lemma runOps_inv (ops : List MOp) : ∀ st : List Citation,
    TextInv (st.map (fun c => c.text)) →
    TextInv ((ops.foldl stepOp st).map (fun c => c.text)) := by
  induction ops with
  | nil => intro st h; exact h
  | cons op rest ih =>
    intro st h
    exact ih (stepOp st op) (stepOp_preserves st op h)

/-- Claim C5: in every library state reachable from the empty library by
the manager's mutating operations, no two stored records share the same
text after trimming. -/
theorem c5_unique_trimmed_texts (ops : List MOp) :
    ((runOps ops).map (fun c => trim c.text)).Pairwise (fun a b => a ≠ b) := by
  have h := runOps_inv ops [] ⟨by simp, by simp⟩
  have hmap : (runOps ops).map (fun c => trim c.text)
      = (runOps ops).map (fun c => c.text) := by
    refine List.map_congr_left (fun c hc => ?_)
    exact h.1 c.text (List.mem_map_of_mem (fun c => c.text) hc)
  rw [runOps] at hmap
  rw [runOps, hmap]
  exact h.2

end ClipCite
